import Mathlib

/-!
Verification of the push-scheduling layer of the Milky_Tarot Telegram bot.

The Lean definitions below are a shallow embedding of the Python sources:

* `src/utils/scheduler.py` — `PushScheduler` (`schedule_daily`,
  `convert_user_time_to_moscow`, `schedule_daily_with_offset`, `remove`,
  `has_job`, `_job_id`, `_wrap_callback`);
* `src/bot/main.py` — `reschedule_user_pushes`;
* `src/utils/push.py` — `send_push_card`;
* `src/utils/cards_loader.py` — the `Card` record and the signature of
  `choose_random_card`.

Python strings are Lean `String`s, Python `int` is `Int` (Python integers are
unbounded), Python exceptions are made explicit with a `PyOutcome` result type
that carries the state at the moment of the raise, and the APScheduler job
store (a dict keyed by job-id strings) is an association list whose operations
preserve key-uniqueness.
-/

namespace Milky

/-- Outcome of running a Python procedure whose state has type `σ`:
either a normal return, or an uncaught exception (with its message) raised
while the mutable state had the recorded value. -/
inductive PyOutcome (σ : Type) where
  | ok : σ → PyOutcome σ
  | raised : String → σ → PyOutcome σ
  deriving Repr, DecidableEq

/-- The state in which a procedure finished, whether or not it raised. -/
def PyOutcome.state : PyOutcome σ → σ
  | .ok s => s
  | .raised _ s => s

/-- `True` iff the procedure returned without an uncaught exception. -/
def PyOutcome.noRaise : PyOutcome σ → Prop
  | .ok _ => True
  | .raised _ _ => False

instance : DecidablePred (PyOutcome.noRaise (σ := σ)) := fun o => by
  cases o <;> simp [PyOutcome.noRaise] <;> infer_instance

/-! ### Decimal digits: embedding of Python's `int()` and `str`/`%02d` rendering -/

/-- The character for a decimal digit `d < 10` (Python digit rendering). -/
def digitChar (d : Nat) : Char := Char.ofNat (48 + d)

/-- Numeric value of an ASCII decimal digit character, `none` otherwise. -/
def digitVal (c : Char) : Option Nat :=
  if 48 ≤ c.toNat ∧ c.toNat ≤ 57 then some (c.toNat - 48) else none

/-- Read decimal digits left-to-right, extending accumulator `acc`;
fails on the first non-digit character (as Python `int()` does). -/
def readDigitsFrom : List Char → Nat → Option Nat
  | [], acc => some acc
  | c :: cs, acc =>
    match digitVal c with
    | some d => readDigitsFrom cs (acc * 10 + d)
    | none => none

/-- Read a non-empty run of decimal digits (Python `int()` needs ≥ 1 digit). -/
def readDigits1 : List Char → Option Nat
  | [] => none
  | c :: cs =>
    match digitVal c with
    | some d => readDigitsFrom cs d
    | none => none

/-- Embedding of Python `int(s)` on a character list: optional surrounding
whitespace, optional sign, then one or more decimal digits. -/
def pyIntOfChars (cs : List Char) : Option Int :=
  let t := ((cs.dropWhile Char.isWhitespace).reverse.dropWhile Char.isWhitespace).reverse
  match t with
  | [] => none
  | c :: rest =>
    if c = '-' then (readDigits1 rest).map (fun n => -(n : Int))
    else if c = '+' then (readDigits1 rest).map (fun n => (n : Int))
    else (readDigits1 t).map (fun n => (n : Int))

/-- Embedding of Python `str.split(sep)` for a one-character separator:
splits at every occurrence, keeping empty pieces (`"".split(":") == [""]`). -/
def splitOnChar (sep : Char) : List Char → List (List Char)
  | [] => [[]]
  | x :: xs =>
    let r := splitOnChar sep xs
    if x = sep then [] :: r
    else
      match r with
      | [] => [[x]]
      | g :: gs => (x :: g) :: gs

/-- Embedding of `hour, minute = map(int, time_str.split(":"))`:
`some (hour, minute)` on success, `none` where Python raises `ValueError`
(wrong number of `:`-separated fields, or a field that is not an integer). -/
def parseTwoInts (s : String) : Option (Int × Int) :=
  match splitOnChar ':' s.toList with
  | [a, b] =>
    match pyIntOfChars a, pyIntOfChars b with
    | some x, some y => some (x, y)
    | _, _ => none
  | _ => none

/-- Fuel-driven decimal rendering; the fuel bounds the number of division
steps, following the shape of core's `Nat.toDigits`. `natDigits` below
supplies ample fuel, and `natDigits_eq` recovers the fuel-free unfolding. -/
def natDigitsAux : Nat → Nat → List Char
  | 0, _ => []
  | fuel + 1, n =>
    if n < 10 then [digitChar n]
    else natDigitsAux fuel (n / 10) ++ [digitChar (n % 10)]

/-- Decimal digit characters of `n` (Python `str` of a non-negative int). -/
def natDigits (n : Nat) : List Char := natDigitsAux (n + 1) n

/-- Characters of Python `str(n)` for an arbitrary integer. -/
def intChars (n : Int) : List Char :=
  if n < 0 then '-' :: natDigits (-n).toNat else natDigits n.toNat

/-- Embedding of Python `str(n)` on integers. -/
def intToStr (n : Int) : String := String.mk (intChars n)

/-- Embedding of the Python format spec `f"{n:02d}"`: pad with `'0'` to
width 2 (a negative number's sign counts toward the width). -/
def pad2Chars (n : Int) : List Char :=
  let s := intChars n
  if s.length < 2 then '0' :: s else s

/-- Embedding of `f"{hour:02d}:{minute:02d}"`. -/
def formatTime (hour minute : Int) : String :=
  String.mk (pad2Chars hour ++ ':' :: pad2Chars minute)

/-! ### APScheduler job store and `PushScheduler` (src/utils/scheduler.py)

The background scheduler's job store is a dict keyed by job-id strings; we
embed it as an association list, writing each dict operation explicitly.
The callback stored in a job is kept abstract (type `α`), as the scheduler
never inspects it. A `CronTrigger(hour=h, minute=m)` validates its fields
against the cron ranges ([0,23] for `hour`, [0,59] for `minute`) and raises
`ValueError` on an out-of-range value; we embed it as an `Except`. -/

/-- A cron trigger as built by `CronTrigger(hour=..., minute=...)`:
fields already validated to be in range. -/
structure CronTrigger where
  hour : Int
  minute : Int
  deriving Repr, DecidableEq

/-- Embedding of the `CronTrigger(hour=hour, minute=minute)` constructor:
APScheduler validates each field against its cron range and raises
`ValueError` when it is outside it. -/
def cronTrigger (hour minute : Int) : Except String CronTrigger :=
  if 0 ≤ hour ∧ hour ≤ 23 then
    if 0 ≤ minute ∧ minute ≤ 59 then .ok ⟨hour, minute⟩
    else .error "ValueError: minute out of the range"
  else .error "ValueError: hour out of the range"

/-- A job in the store: its trigger and the (wrapped) callback, together with
the `user_id` keyword argument the scheduler passes at fire time. -/
structure Job (α : Type) where
  trigger : CronTrigger
  callback : α
  kwUserId : Int
  deriving Repr, DecidableEq

/-- First value stored under key `k` (dict lookup on the assoc list). -/
def lookupKey (k : String) : List (String × β) → Option β
  | [] => none
  | (k', v) :: rest => if k' = k then some v else lookupKey k rest

/-- Remove the first binding of key `k` (dict `del`; dict keys are unique). -/
def eraseKey (k : String) : List (String × β) → List (String × β)
  | [] => []
  | (k', v) :: rest => if k' = k then rest else (k', v) :: eraseKey k rest

/-- Dict insertion: replace the binding of `k` in place if present,
append otherwise (`add_job(..., replace_existing=True)` semantics). -/
def insertKey (k : String) (v : β) : List (String × β) → List (String × β)
  | [] => [(k, v)]
  | (k', v') :: rest =>
    if k' = k then (k, v) :: rest else (k', v') :: insertKey k v rest

/-- The scheduler's mutable state: its job store. -/
structure SchedState (α : Type) where
  jobs : List (String × Job α)
  deriving Repr, DecidableEq

/-- The scheduler right after construction: empty job store. -/
def SchedState.empty (α : Type) : SchedState α := ⟨[]⟩

/-- `PushScheduler._job_id`: `f"push-{user_id}"`. -/
def jobId (userId : Int) : String := "push-" ++ intToStr userId

/-- `scheduler.get_job(job_id)`. -/
def getJob (jid : String) (st : SchedState α) : Option (Job α) :=
  lookupKey jid st.jobs

/-- `scheduler.remove_job(job_id)`: deletes the job, raising
`JobLookupError` when no job has that id. -/
def removeJob (jid : String) (st : SchedState α) : PyOutcome (SchedState α) :=
  if (getJob jid st).isSome then .ok ⟨eraseKey jid st.jobs⟩
  else .raised "JobLookupError" st

/-- `scheduler.add_job(wrapped, trigger, id=job_id, kwargs={"user_id": user_id},
replace_existing=True)`. -/
def addJob (jid : String) (trig : CronTrigger) (cb : α) (userId : Int)
    (st : SchedState α) : SchedState α :=
  ⟨insertKey jid ⟨trig, cb, userId⟩ st.jobs⟩

/-- `PushScheduler.remove(user_id)`: look the job up first and delete it only
if present, so an absent id raises nothing. -/
def remove (userId : Int) (st : SchedState α) : PyOutcome (SchedState α) :=
  let jid := jobId userId
  match getJob jid st with
  | some _ => removeJob jid st
  | none => .ok st

/-- The state `remove` leaves behind (it never raises; see `remove_noRaise`). -/
def removeState (userId : Int) (st : SchedState α) : SchedState α :=
  (remove userId st).state

/-- `PushScheduler.has_job(user_id)`. -/
def hasJob (userId : Int) (st : SchedState α) : Bool :=
  (getJob (jobId userId) st).isSome

/-- `DEFAULT_PUSH_TIME` from src/utils/scheduler.py. -/
def DEFAULT_PUSH_TIME : String := "10:00"

/-- `PushScheduler.schedule_daily(user_id, time_str, callback)`:
parse `time_str` (a `ValueError` there is caught, logged and the call
returns), then remove any previous job and add a cron job — where an
out-of-range hour or minute makes the `CronTrigger` constructor raise a
`ValueError` that no handler catches. -/
def schedule_daily (userId : Int) (timeStr : String) (cb : α)
    (st : SchedState α) : PyOutcome (SchedState α) :=
  match parseTwoInts timeStr with
  | none => .ok st
  | some (hour, minute) =>
    let st1 := removeState userId st
    match cronTrigger hour minute with
    | .error e => .raised e st1
    | .ok trig => .ok (addJob (jobId userId) trig cb userId st1)

/-- `PushScheduler.convert_user_time_to_moscow(time_str, tz_offset_hours)`:
on a parse failure the string is returned unchanged; otherwise the hour is
shifted by the offset modulo 24 (Python `%` on a positive modulus, hence
always non-negative) and re-rendered as `f"{msk_hour:02d}:{minute:02d}"`.
(`tz_offset_hours or 0` is the identity on actual integers.) -/
def convert_user_time_to_moscow (timeStr : String) (tzOffsetHours : Int) :
    String :=
  match parseTwoInts timeStr with
  | none => timeStr
  | some (userHour, minute) => formatTime ((userHour - tzOffsetHours) % 24) minute

/-- `PushScheduler.schedule_daily_with_offset(user_id, user_time_str,
tz_offset_hours, callback)`. -/
def schedule_daily_with_offset (userId : Int) (userTimeStr : String)
    (tzOffsetHours : Int) (cb : α) (st : SchedState α) :
    PyOutcome (SchedState α) :=
  schedule_daily userId (convert_user_time_to_moscow userTimeStr tzOffsetHours) cb st

/-! ### `PushScheduler._wrap_callback` (src/utils/scheduler.py, lines 44–55)

The wrapped `runner` calls the registered action, and if the call returned a
coroutine hands it to the configured asyncio loop — raising `RuntimeError`
when no loop was configured. The whole body sits in a
`try: ... except Exception: logger.exception(...)` block, so `runner`
itself always returns normally. We embed the body as an `Except` and the
wrapper as the catch; a registered action's behaviour at fire time is
abstracted by `CallOutcome`. -/

/-- What `callback(*args, **kwargs)` did at fire time: returned a value
(`isCoroutine` tells whether `asyncio.iscoroutine(result)` holds), or raised
an exception with the given message. -/
inductive CallOutcome where
  | ret (isCoroutine : Bool)
  | exn (msg : String)
  deriving Repr, DecidableEq

/-- The `try`-block of `runner`: run the callback, and for a coroutine
result require a configured loop (`raise RuntimeError(...)` otherwise)
before handing it to `run_coroutine_threadsafe`. -/
def runnerBody (loopConfigured : Bool) (o : CallOutcome) : Except String Unit :=
  match o with
  | .exn m => .error m
  | .ret false => .ok ()
  | .ret true =>
    if loopConfigured then .ok ()
    else .error "RuntimeError: Event loop is not configured for PushScheduler"

/-- The wrapped timer callback produced by `_wrap_callback`: the body's
exception, if any, is caught and logged (`logger.exception`), and `runner`
returns normally. The returned `Bool` records whether an error was logged. -/
def runner (loopConfigured : Bool) (o : CallOutcome) : PyOutcome Bool :=
  match runnerBody loopConfigured o with
  | .ok _ => .ok false
  | .error _ => .ok true

/-! ### `reschedule_user_pushes` (src/bot/main.py, lines 30–50)

The routine snapshots `(id, push_time or DEFAULT_PUSH_TIME, bool(push_enabled))`
for every persisted user, then walks the snapshot scheduling enabled users
with plain `schedule_daily` (the stored `tz_offset_hours` column is not read)
and removing disabled ones. There is no exception handler around the loop. -/

/-- The columns of a persisted `users` row that rehydration can observe
(src/utils/db.py): `push_time` is a nullable string column and
`tz_offset_hours` the user's offset from Moscow in hours. -/
structure DBUser where
  id : Int
  push_time : Option String
  push_enabled : Bool
  tz_offset_hours : Int
  deriving Repr, DecidableEq

/-- Python `s or default` for an optional string: `None` and `""` are falsy. -/
def pyOrStr (s : Option String) (default : String) : String :=
  match s with
  | none => default
  | some s => if s = "" then default else s

/-- The dict built per user inside `reschedule_user_pushes`. -/
structure RehydRow where
  id : Int
  push_time : String
  push_enabled : Bool
  deriving Repr, DecidableEq

/-- The comprehension `{"id": ..., "push_time": user.push_time or
DEFAULT_PUSH_TIME, "push_enabled": bool(user.push_enabled)}`: the stored
`tz_offset_hours` is dropped. -/
def toRehydRow (u : DBUser) : RehydRow :=
  ⟨u.id, pyOrStr u.push_time DEFAULT_PUSH_TIME, u.push_enabled⟩

/-- The `for user in users:` loop of `reschedule_user_pushes`: an uncaught
exception from an iteration aborts the remaining iterations. -/
def rescheduleRows (cb : α) : List RehydRow → SchedState α →
    PyOutcome (SchedState α)
  | [], st => .ok st
  | u :: rest, st =>
    if u.push_enabled then
      match schedule_daily u.id u.push_time cb st with
      | .ok st' => rescheduleRows cb rest st'
      | .raised e st' => .raised e st'
    else
      match remove u.id st with
      | .ok st' => rescheduleRows cb rest st'
      | .raised e st' => .raised e st'

/-- `reschedule_user_pushes`, over the list of persisted users. Every
iteration binds the same push-action closure, abstracted as `cb`. -/
def reschedule_user_pushes (cb : α) (users : List DBUser)
    (st : SchedState α) : PyOutcome (SchedState α) :=
  rescheduleRows cb (users.map toRehydRow) st

/-! ### `send_push_card` (src/utils/push.py) and the card model
(src/utils/cards_loader.py)

`Card` is a dataclass with fields `title` and `description`; its only
method is `image_url` — there is no `image_path` attribute, so the
`card.image_path()` call in `send_push_card` raises `AttributeError`.
`choose_random_card` is defined as `choose_random_card(user, cards, db)`,
so the one-argument calls `choose_random_card(cards)` in `send_push_card`
raise `TypeError` before any bookkeeping write. Dates are abstract day
numbers. -/

/-- The `Card` dataclass of src/utils/cards_loader.py. -/
structure Card where
  title : String
  description : String
  deriving Repr, DecidableEq

/-- The columns of a `users` row that `send_push_card` reads or writes. -/
structure PushUser where
  push_enabled : Bool
  last_card : Option String
  last_card_date : Option Int
  last_activity_date : Option Int
  draw_count : Int
  deriving Repr, DecidableEq

/-- Python truthiness of a nullable string (`None` and `""` are falsy). -/
def pyTruthyStr (s : Option String) : Bool :=
  match s with
  | none => false
  | some s => s ≠ ""

/-- `send_push_card(bot, user_id)`, acting on the user's row (`none` when no
row matches `user_id`); `today` is `date.today()`. Disabled or missing users
return immediately with no write. Otherwise, when today's card is already
recorded and its title is found in the deck, the code performs no update and
proceeds to `card.image_path()`, which raises `AttributeError` (`Card`
defines `image_url` only); on every other path it calls
`choose_random_card(cards)`, which raises `TypeError` because
`choose_random_card` requires `(user, cards, db)` — in both cases before any
bookkeeping write, so the update block (lines 29–41) is unreachable. -/
def send_push_card (cards : List Card) (today : Int)
    (userRow : Option PushUser) : PyOutcome (Option PushUser) :=
  match userRow with
  | none => .ok none
  | some user =>
    if !user.push_enabled then .ok (some user)
    else
      if pyTruthyStr user.last_card && (user.last_card_date == some today) then
        let title := user.last_card.getD ""
        match cards.find? (fun c => c.title = title) with
        | some _card =>
          .raised "AttributeError: Card object has no attribute image_path"
            (some user)
        | none =>
          .raised "TypeError: choose_random_card missing 2 required positional arguments: cards and db"
            (some user)
      else
        .raised "TypeError: choose_random_card missing 2 required positional arguments: cards and db"
          (some user)

/-! ### Sequences of registry operations -/

/-- One call against the scheduler's public scheduling interface. -/
inductive SchedOp (α : Type) where
  | schedDaily (userId : Int) (timeStr : String) (cb : α)
  | schedDailyWithOffset (userId : Int) (timeStr : String) (off : Int) (cb : α)
  | rem (userId : Int)
  deriving Repr

/-- The registry state after one call (whether or not the call raised). -/
def applyOp (st : SchedState α) : SchedOp α → SchedState α
  | .schedDaily u t cb => (schedule_daily u t cb st).state
  | .schedDailyWithOffset u t o cb => (schedule_daily_with_offset u t o cb st).state
  | .rem u => (remove u st).state

/-- The registry state after a sequence of calls. -/
def applyOps (st : SchedState α) (ops : List (SchedOp α)) : SchedState α :=
  ops.foldl applyOp st

/-- Number of live jobs the registry holds for `userId`. -/
def countJobsFor (userId : Int) (st : SchedState α) : Nat :=
  (st.jobs.map Prod.fst).count (jobId userId)

/-- Key-uniqueness of the job store (a Python dict cannot repeat a key). -/
def keysNodup (st : SchedState α) : Prop :=
  (st.jobs.map Prod.fst).Nodup

/-! ## Groundwork lemmas -/

/-- Enough fuel makes the fuel argument irrelevant. -/
lemma natDigitsAux_fuel : ∀ (f₁ f₂ n : Nat), n < f₁ → n < f₂ →
    natDigitsAux f₁ n = natDigitsAux f₂ n := by
  intro f₁
  induction f₁ with
  | zero => intro f₂ n h₁ _; omega
  | succ f₁ ih =>
    intro f₂ n h₁ h₂
    match f₂, h₂ with
    | f₂ + 1, h₂ =>
      by_cases h : n < 10
      · simp [natDigitsAux, h]
      · simp only [natDigitsAux, if_neg h]
        rw [ih f₂ (n / 10) (by omega) (by omega)]

/-- The recursive unfolding of `natDigits`. -/
lemma natDigits_eq (n : Nat) :
    natDigits n =
      if n < 10 then [digitChar n]
      else natDigits (n / 10) ++ [digitChar (n % 10)] := by
  show natDigitsAux (n + 1) n = _
  by_cases h : n < 10
  · simp [natDigitsAux, h]
  · simp only [natDigitsAux, if_neg h]
    rw [natDigitsAux_fuel n (n / 10 + 1) (n / 10) (by omega) (by omega)]
    rfl

/-- Code of the rendered digit character. -/
lemma digitChar_toNat {d : Nat} (h : d < 10) : (digitChar d).toNat = 48 + d := by
  interval_cases d <;> decide

/-- Reading back a rendered digit. -/
lemma digitVal_digitChar {d : Nat} (h : d < 10) :
    digitVal (digitChar d) = some d := by
  interval_cases d <;> decide

/-- Reading digits distributes over list append. -/
lemma readDigitsFrom_append (xs ys : List Char) (acc : Nat) :
    readDigitsFrom (xs ++ ys) acc =
      (readDigitsFrom xs acc).bind (fun m => readDigitsFrom ys m) := by
  induction xs generalizing acc with
  | nil => simp [readDigitsFrom]
  | cons c cs ih =>
    simp only [List.cons_append, readDigitsFrom]
    cases hdv : digitVal c <;> simp [hdv, ih]

/-- Reading the rendering of `n` appends `n` to the accumulator in base 10. -/
lemma readDigitsFrom_natDigits (n : Nat) : ∀ acc : Nat,
    readDigitsFrom (natDigits n) acc =
      some (acc * 10 ^ (natDigits n).length + n) := by
  induction n using Nat.strong_induction_on with
  | _ n ih =>
    intro acc
    rw [natDigits_eq]
    by_cases h : n < 10
    · rw [if_pos h]
      simp [readDigitsFrom, digitVal_digitChar h]
    · rw [if_neg h, readDigitsFrom_append,
        ih (n / 10) (Nat.div_lt_self (by omega) (by omega)) acc]
      have hd : digitVal (digitChar (n % 10)) = some (n % 10) :=
        digitVal_digitChar (by omega)
      simp only [Option.some_bind, readDigitsFrom, hd, List.length_append,
        List.length_singleton]
      have h2 : n / 10 * 10 + n % 10 = n := by omega
      congr 1
      calc (acc * 10 ^ (natDigits (n / 10)).length + n / 10) * 10 + n % 10
          = acc * (10 ^ (natDigits (n / 10)).length * 10) +
              (n / 10 * 10 + n % 10) := by ring
        _ = acc * 10 ^ ((natDigits (n / 10)).length + 1) + n := by
              rw [pow_succ, h2]

/-- A rendered number is never the empty list. -/
lemma natDigits_ne_nil (n : Nat) : natDigits n ≠ [] := by
  rw [natDigits_eq]
  split <;> simp

/-- Every character of a rendered number is an ASCII decimal digit. -/
lemma natDigits_all_digits (n : Nat) :
    ∀ c ∈ natDigits n, 48 ≤ c.toNat ∧ c.toNat ≤ 57 := by
  induction n using Nat.strong_induction_on with
  | _ n ih =>
    intro c hc
    rw [natDigits_eq] at hc
    by_cases h : n < 10
    · rw [if_pos h] at hc
      simp only [List.mem_singleton] at hc
      subst hc
      rw [digitChar_toNat h]
      omega
    · rw [if_neg h] at hc
      rcases List.mem_append.mp hc with hc | hc
      · exact ih (n / 10) (Nat.div_lt_self (by omega) (by omega)) c hc
      · simp only [List.mem_singleton] at hc
        subst hc
        rw [digitChar_toNat (show n % 10 < 10 by omega)]
        omega

/-- Decimal rendering is injective (it has `readDigitsFrom · 0` as a
left inverse). -/
lemma natDigits_injective : Function.Injective natDigits := by
  intro a b h
  have ha := readDigitsFrom_natDigits a 0
  have hb := readDigitsFrom_natDigits b 0
  rw [h, hb] at ha
  simpa using ha.symm

/-- Python `str` on integers is injective at the character level. -/
lemma intChars_injective : Function.Injective intChars := by
  intro a b h
  unfold intChars at h
  by_cases ha : a < 0 <;> by_cases hb : b < 0
  · rw [if_pos ha, if_pos hb] at h
    injection h with _ h2
    have := natDigits_injective h2
    omega
  · rw [if_pos ha, if_neg hb] at h
    have hmem : '-' ∈ natDigits b.toNat := by
      rw [← h]; exact List.mem_cons_self _ _
    have := (natDigits_all_digits b.toNat '-' hmem).1
    simp at this
  · rw [if_neg ha, if_pos hb] at h
    have hmem : '-' ∈ natDigits a.toNat := by
      rw [h]; exact List.mem_cons_self _ _
    have := (natDigits_all_digits a.toNat '-' hmem).1
    simp at this
  · rw [if_neg ha, if_neg hb] at h
    have := natDigits_injective h
    omega

/-- `(a ++ b).data` is the concatenation of the character lists. -/
lemma string_data_append (a b : String) : (a ++ b).data = a.data ++ b.data := by
  cases a
  cases b
  rfl

/-- `_job_id` is injective: distinct user ids get distinct job ids. -/
lemma jobId_injective : Function.Injective jobId := by
  intro a b h
  have hd : ("push-" ++ intToStr a).data = ("push-" ++ intToStr b).data :=
    congrArg String.data h
  rw [string_data_append, string_data_append] at hd
  exact intChars_injective (List.append_cancel_left hd)

/-- An ASCII digit character is not whitespace. -/
lemma digit_not_whitespace {c : Char} (h1 : 48 ≤ c.toNat) (_h2 : c.toNat ≤ 57) :
    c.isWhitespace = false := by
  have e1 : c ≠ ' ' := fun e => absurd (e ▸ h1) (by decide)
  have e2 : c ≠ '\t' := fun e => absurd (e ▸ h1) (by decide)
  have e3 : c ≠ '\r' := fun e => absurd (e ▸ h1) (by decide)
  have e4 : c ≠ '\n' := fun e => absurd (e ▸ h1) (by decide)
  simp [Char.isWhitespace, e1, e2, e3, e4]

/-- `dropWhile isWhitespace` keeps a list of digit characters intact. -/
lemma dropWhile_ws_digits (l : List Char)
    (h : ∀ c ∈ l, 48 ≤ c.toNat ∧ c.toNat ≤ 57) :
    l.dropWhile Char.isWhitespace = l := by
  cases l with
  | nil => rfl
  | cons x xs =>
    have hx := h x (List.mem_cons_self _ _)
    rw [List.dropWhile_cons, if_neg]
    rw [digit_not_whitespace hx.1 hx.2]
    simp

/-! ### Dict (association-list) lemmas for the job store -/

/-- Looking up the key just inserted. -/
lemma lookupKey_insertKey_self (k : String) (v : β) (l : List (String × β)) :
    lookupKey k (insertKey k v l) = some v := by
  induction l with
  | nil => simp [insertKey, lookupKey]
  | cons p rest ih =>
    by_cases hp : p.1 = k
    · simp [insertKey, hp, lookupKey]
    · simp [insertKey, hp, lookupKey, ih]

/-- Inserting under one key does not affect lookups of another. -/
lemma lookupKey_insertKey_ne {k k' : String} (hne : k' ≠ k) (v : β)
    (l : List (String × β)) :
    lookupKey k' (insertKey k v l) = lookupKey k' l := by
  induction l with
  | nil => simp [insertKey, lookupKey, Ne.symm hne]
  | cons p rest ih =>
    by_cases hp : p.1 = k
    · subst hp
      simp [insertKey, lookupKey, Ne.symm hne]
    · simp only [insertKey, if_neg hp, lookupKey, ih]

/-- Deleting one key does not affect lookups of another. -/
lemma lookupKey_eraseKey_ne {k k' : String} (hne : k' ≠ k)
    (l : List (String × β)) :
    lookupKey k' (eraseKey k l) = lookupKey k' l := by
  induction l with
  | nil => rfl
  | cons p rest ih =>
    by_cases hp : p.1 = k
    · subst hp
      simp [eraseKey, lookupKey, Ne.symm hne]
    · simp only [eraseKey, if_neg hp, lookupKey, ih]

/-- Deleting an absent key is the identity. -/
lemma eraseKey_lookup_none {k : String} {l : List (String × β)}
    (h : lookupKey k l = none) : eraseKey k l = l := by
  induction l with
  | nil => rfl
  | cons p rest ih =>
    by_cases hp : p.1 = k
    · rw [lookupKey, if_pos hp] at h
      exact absurd h (by simp)
    · rw [lookupKey, if_neg hp] at h
      simp only [eraseKey, if_neg hp, ih h]

/-- Deletion yields a sublist of the store. -/
lemma eraseKey_sublist (k : String) (l : List (String × β)) :
    (eraseKey k l).Sublist l := by
  induction l with
  | nil => simp [eraseKey]
  | cons p rest ih =>
    by_cases hp : p.1 = k
    · simp only [eraseKey, if_pos hp]
      exact (List.sublist_cons_self p rest)
    · simp only [eraseKey, if_neg hp]
      exact ih.cons₂ p

/-- A key is present exactly when its lookup succeeds. -/
lemma lookupKey_isSome_iff (k : String) (l : List (String × β)) :
    (lookupKey k l).isSome ↔ k ∈ l.map Prod.fst := by
  induction l with
  | nil => simp [lookupKey]
  | cons p rest ih =>
    rcases p with ⟨pk, pv⟩
    by_cases hp : pk = k
    · subst hp
      simp [lookupKey]
    · rw [List.map_cons, lookupKey, if_neg hp]
      constructor
      · intro hs
        exact List.mem_cons_of_mem _ (ih.mp hs)
      · intro hm
        rcases List.mem_cons.mp hm with he | hm'
        · exact absurd he.symm hp
        · exact ih.mpr hm'

/-- Replacing the binding of a present key keeps the key list. -/
lemma keys_insertKey_mem {k : String} (v : β) {l : List (String × β)}
    (h : k ∈ l.map Prod.fst) :
    (insertKey k v l).map Prod.fst = l.map Prod.fst := by
  induction l with
  | nil => simp at h
  | cons p rest ih =>
    rcases p with ⟨pk, pv⟩
    by_cases hp : pk = k
    · subst hp
      simp [insertKey]
    · have hk : k ∈ rest.map Prod.fst := by
        rw [List.map_cons] at h
        rcases List.mem_cons.mp h with he | h'
        · exact absurd he.symm hp
        · exact h'
      simp [insertKey, hp, ih hk]

/-- Inserting a fresh key appends it to the key list. -/
lemma keys_insertKey_not_mem {k : String} (v : β) {l : List (String × β)}
    (h : k ∉ l.map Prod.fst) :
    (insertKey k v l).map Prod.fst = l.map Prod.fst ++ [k] := by
  induction l with
  | nil => simp [insertKey]
  | cons p rest ih =>
    rcases p with ⟨pk, pv⟩
    rw [List.map_cons] at h
    have hp : ¬pk = k := fun hp => h (hp ▸ List.mem_cons_self _ _)
    have hr : k ∉ rest.map Prod.fst := fun hr => h (List.mem_cons_of_mem _ hr)
    simp [insertKey, hp, ih hr]

/-- Dict insertion preserves key uniqueness. -/
lemma nodup_keys_insertKey {k : String} (v : β) {l : List (String × β)}
    (h : (l.map Prod.fst).Nodup) :
    ((insertKey k v l).map Prod.fst).Nodup := by
  by_cases hk : k ∈ l.map Prod.fst
  · rw [keys_insertKey_mem v hk]
    exact h
  · rw [keys_insertKey_not_mem v hk]
    simp [List.nodup_append, h, hk]

/-- Dict deletion preserves key uniqueness. -/
lemma nodup_keys_eraseKey (k : String) {l : List (String × β)}
    (h : (l.map Prod.fst).Nodup) :
    ((eraseKey k l).map Prod.fst).Nodup :=
  h.sublist ((eraseKey_sublist k l).map Prod.fst)

/-- Whitespace trimming keeps a list of digit characters intact. -/
lemma trim_digits (l : List Char)
    (h : ∀ c ∈ l, 48 ≤ c.toNat ∧ c.toNat ≤ 57) :
    ((l.dropWhile Char.isWhitespace).reverse.dropWhile
      Char.isWhitespace).reverse = l := by
  rw [dropWhile_ws_digits l h,
    dropWhile_ws_digits l.reverse
      (fun c hc => h c (List.mem_reverse.mp hc)),
    List.reverse_reverse]

/-- On a non-empty all-digit list, `readDigits1` is `readDigitsFrom · 0`. -/
lemma readDigits1_digits (l : List Char) (hne : l ≠ [])
    (h : ∀ c ∈ l, 48 ≤ c.toNat ∧ c.toNat ≤ 57) :
    readDigits1 l = readDigitsFrom l 0 := by
  cases l with
  | nil => exact absurd rfl hne
  | cons c cs =>
    have hc := h c (List.mem_cons_self _ _)
    have hd : digitVal c = some (c.toNat - 48) := by
      unfold digitVal
      rw [if_pos ⟨hc.1, hc.2⟩]
    simp [readDigits1, readDigitsFrom, hd]

/-- Python `int()` on a non-empty all-digit character list just reads the
digits. -/
lemma pyIntOfChars_digits (l : List Char) (hne : l ≠ [])
    (h : ∀ c ∈ l, 48 ≤ c.toNat ∧ c.toNat ≤ 57) :
    pyIntOfChars l = (readDigitsFrom l 0).map (fun n => (n : Int)) := by
  cases l with
  | nil => exact absurd rfl hne
  | cons c cs =>
    have hc := h c (List.mem_cons_self _ _)
    have hc1 : c ≠ '-' := fun e => absurd (e ▸ hc.1) (by decide)
    have hc2 : c ≠ '+' := fun e => absurd (e ▸ hc.1) (by decide)
    unfold pyIntOfChars
    simp only [trim_digits _ h]
    simp only [hc1, hc2, if_false, readDigits1_digits (c :: cs) hne h]

/-- Python `int(str(n))` round-trips for natural `n`. -/
lemma pyIntOfChars_natDigits (n : Nat) :
    pyIntOfChars (natDigits n) = some (n : Int) := by
  rw [pyIntOfChars_digits (natDigits n) (natDigits_ne_nil n)
    (natDigits_all_digits n), readDigitsFrom_natDigits n 0]
  simp

/-- Every character of the `%02d` rendering of a non-negative integer is an
ASCII decimal digit. -/
lemma pad2Chars_all_digits {h : Int} (h0 : 0 ≤ h) :
    ∀ c ∈ pad2Chars h, 48 ≤ c.toNat ∧ c.toNat ≤ 57 := by
  intro c hc
  unfold pad2Chars intChars at hc
  rw [if_neg (by omega : ¬h < 0)] at hc
  by_cases hl : (natDigits h.toNat).length < 2
  · rw [if_pos hl] at hc
    rcases List.mem_cons.mp hc with hc | hc
    · subst hc
      decide
    · exact natDigits_all_digits h.toNat c hc
  · rw [if_neg hl] at hc
    exact natDigits_all_digits h.toNat c hc

/-- Python `int()` reads back the `%02d` rendering of a non-negative
integer. -/
lemma pyIntOfChars_pad2 {h : Int} (h0 : 0 ≤ h) :
    pyIntOfChars (pad2Chars h) = some h := by
  unfold pad2Chars intChars
  rw [if_neg (by omega : ¬h < 0)]
  by_cases hl : (natDigits h.toNat).length < 2
  · rw [if_pos hl]
    rw [pyIntOfChars_digits ('0' :: natDigits h.toNat) (by simp)
      (by
        intro c hc
        rcases List.mem_cons.mp hc with hc | hc
        · subst hc; decide
        · exact natDigits_all_digits h.toNat c hc)]
    have hd0 : digitVal '0' = some 0 := by decide
    simp only [readDigitsFrom, hd0]
    rw [show (0 : Nat) * 10 + 0 = 0 by omega, readDigitsFrom_natDigits h.toNat 0]
    simp [Int.toNat_of_nonneg h0]
  · rw [if_neg hl, pyIntOfChars_natDigits h.toNat, Int.toNat_of_nonneg h0]

/-- Splitting a list without the separator yields a single piece. -/
lemma splitOnChar_no_sep (sep : Char) (l : List Char) (h : sep ∉ l) :
    splitOnChar sep l = [l] := by
  induction l with
  | nil => rfl
  | cons x xs ih =>
    have hx : ¬x = sep := fun hx => h (hx ▸ List.mem_cons_self _ _)
    have ht : sep ∉ xs := fun ht => h (List.mem_cons_of_mem _ ht)
    simp [splitOnChar, hx, ih ht]

/-- Splitting around one occurrence of the separator. -/
lemma splitOnChar_append (sep : Char) (xs ys : List Char) (h : sep ∉ xs) :
    splitOnChar sep (xs ++ sep :: ys) = xs :: splitOnChar sep ys := by
  induction xs with
  | nil => simp [splitOnChar]
  | cons x xs ih =>
    have hx : ¬x = sep := fun hx => h (hx ▸ List.mem_cons_self _ _)
    have ht : sep ∉ xs := fun ht => h (List.mem_cons_of_mem _ ht)
    simp only [List.cons_append, splitOnChar, List.append_eq, ih ht, hx,
      if_false]

/-- The colon is not a digit character, so it never occurs in a `%02d`
rendering of a non-negative integer. -/
lemma colon_not_mem_pad2 {h : Int} (h0 : 0 ≤ h) : ':' ∉ pad2Chars h := by
  intro hc
  have := (pad2Chars_all_digits h0 ':' hc).2
  revert this
  decide

/-- `map(int, f"{h:02d}:{m:02d}".split(":"))` recovers `(h, m)` for
non-negative `h` and `m`. -/
lemma parseTwoInts_formatTime {h m : Int} (hh : 0 ≤ h) (hm : 0 ≤ m) :
    parseTwoInts (formatTime h m) = some (h, m) := by
  unfold parseTwoInts formatTime
  have htl : (String.mk (pad2Chars h ++ ':' :: pad2Chars m)).toList
      = pad2Chars h ++ ':' :: pad2Chars m := rfl
  rw [htl, splitOnChar_append ':' _ _ (colon_not_mem_pad2 hh),
    splitOnChar_no_sep ':' _ (colon_not_mem_pad2 hm)]
  simp [pyIntOfChars_pad2 hh, pyIntOfChars_pad2 hm]

/-! ### Scheduler-level lemmas -/

/-- `PushScheduler.remove` always returns normally, and the store it leaves
behind is the store with the user's key deleted (deleting an absent key
changes nothing). -/
lemma remove_eq (userId : Int) (st : SchedState α) :
    remove userId st = .ok ⟨eraseKey (jobId userId) st.jobs⟩ := by
  unfold remove removeJob getJob
  cases hget : lookupKey (jobId userId) st.jobs with
  | none =>
    simp only [hget, eraseKey_lookup_none hget]
  | some j =>
    simp [hget]

/-- `remove` never raises. -/
lemma remove_noRaise (userId : Int) (st : SchedState α) :
    (remove userId st).noRaise := by
  rw [remove_eq]
  trivial

/-- The store after `remove`. -/
lemma removeState_eq (userId : Int) (st : SchedState α) :
    removeState userId st = ⟨eraseKey (jobId userId) st.jobs⟩ := by
  unfold removeState
  rw [remove_eq]
  rfl

/-- A time string Python cannot parse makes `schedule_daily` a logged
no-op: normal return, state untouched. -/
lemma schedule_daily_parse_none {timeStr : String}
    (h : parseTwoInts timeStr = none) (userId : Int) (cb : α)
    (st : SchedState α) :
    schedule_daily userId timeStr cb st = .ok st := by
  unfold schedule_daily
  rw [h]

/-- A parseable, in-range time makes `schedule_daily` replace the user's
job: the old one (if any) is deleted and the new cron job stored. -/
lemma schedule_daily_ok {timeStr : String} {hour minute : Int}
    (hp : parseTwoInts timeStr = some (hour, minute))
    (hh : 0 ≤ hour ∧ hour ≤ 23) (hm : 0 ≤ minute ∧ minute ≤ 59)
    (userId : Int) (cb : α) (st : SchedState α) :
    schedule_daily userId timeStr cb st =
      .ok (addJob (jobId userId) ⟨hour, minute⟩ cb userId
        ⟨eraseKey (jobId userId) st.jobs⟩) := by
  unfold schedule_daily
  simp only [hp, cronTrigger]
  rw [if_pos hh, if_pos hm, removeState_eq]

/-- A parseable time with an out-of-range field makes `schedule_daily`
raise out of the `CronTrigger` constructor — after the user's previous job
has already been removed. -/
lemma schedule_daily_raises {timeStr : String} {hour minute : Int}
    (hp : parseTwoInts timeStr = some (hour, minute))
    (hbad : ¬(0 ≤ hour ∧ hour ≤ 23 ∧ 0 ≤ minute ∧ minute ≤ 59))
    (userId : Int) (cb : α) (st : SchedState α) :
    ∃ e, schedule_daily userId timeStr cb st =
      .raised e ⟨eraseKey (jobId userId) st.jobs⟩ := by
  unfold schedule_daily
  simp only [hp, cronTrigger]
  by_cases h1 : 0 ≤ hour ∧ hour ≤ 23
  · rw [if_pos h1, if_neg (by tauto), removeState_eq]
    exact ⟨_, rfl⟩
  · rw [if_neg h1, removeState_eq]
    exact ⟨_, rfl⟩

/-- Each registry operation preserves key uniqueness of the job store. -/
lemma keysNodup_applyOp {st : SchedState α} (h : keysNodup st)
    (op : SchedOp α) : keysNodup (applyOp st op) := by
  have hsched : ∀ (u : Int) (t : String) (cb : α),
      keysNodup ((schedule_daily u t cb st).state) := by
    intro u t cb
    unfold schedule_daily
    cases hp : parseTwoInts t with
    | none => exact h
    | some hm =>
      rcases hm with ⟨hh, mm⟩
      simp only [removeState_eq]
      cases htr : cronTrigger hh mm with
      | error e => exact nodup_keys_eraseKey _ h
      | ok trig =>
        exact nodup_keys_insertKey _ (nodup_keys_eraseKey _ h)
  cases op with
  | schedDaily u t cb => exact hsched u t cb
  | schedDailyWithOffset u t o cb => exact hsched u _ cb
  | rem u =>
    show keysNodup ((remove u st).state)
    rw [remove_eq]
    exact nodup_keys_eraseKey _ h

/-- Key uniqueness holds after any sequence of operations from a
uniquely-keyed store. -/
lemma keysNodup_applyOps {st : SchedState α} (h : keysNodup st)
    (ops : List (SchedOp α)) : keysNodup (applyOps st ops) := by
  induction ops generalizing st with
  | nil => exact h
  | cons op ops ih => exact ih (keysNodup_applyOp h op)

/-! ## Claim theorems -/

/-- C1 (amended): for every time string that Python cannot parse as two
colon-separated integers (e.g. `"bad"`), `schedule_daily` raises nothing
and leaves the registry unchanged — no job is created or replaced. (The
original claim extended this to parseable strings with out-of-range
fields such as `"25:00"`; `C1_counterexample` shows those instead raise
`ValueError` out of the call after removing the user's existing job.) -/
theorem C1_unparseable_time_is_noop (userId : Int) (timeStr : String)
    (cb : α) (st : SchedState α) (h : parseTwoInts timeStr = none) :
    schedule_daily userId timeStr cb st = .ok st :=
  schedule_daily_parse_none h userId cb st

/-- Witness for C1 at `"bad"` and a concrete registry. -/
theorem C1_unparseable_time_is_noop_witness :
    parseTwoInts "bad" = none ∧
    schedule_daily 3 "bad" (0 : Nat) (SchedState.empty Nat)
      = .ok (SchedState.empty Nat) :=
  ⟨by decide, C1_unparseable_time_is_noop 3 "bad" 0 (SchedState.empty Nat)
    (by decide)⟩

/-- C1 counterexample: `"25:00"` is not a valid `"HH:MM"` time, yet
`schedule_daily` raises a `ValueError` out of the call (from the
`CronTrigger` constructor) and the registry is changed — the user's
previous 09:00 job is gone. -/
theorem C1_counterexample :
    ¬ (schedule_daily 1 "25:00" (0 : Nat)
        (⟨[(jobId 1, ⟨⟨9, 0⟩, 0, 1⟩)]⟩ : SchedState Nat)).noRaise ∧
    (schedule_daily 1 "25:00" (0 : Nat)
        (⟨[(jobId 1, ⟨⟨9, 0⟩, 0, 1⟩)]⟩ : SchedState Nat)).state
      ≠ ⟨[(jobId 1, ⟨⟨9, 0⟩, 0, 1⟩)]⟩ := by
  decide

/-- C8: `remove` on a user id with no live job raises nothing and leaves
the registry completely unchanged. -/
theorem C8_remove_absent_is_noop (userId : Int) (st : SchedState α)
    (h : hasJob userId st = false) :
    remove userId st = .ok st := by
  have hn : lookupKey (jobId userId) st.jobs = none := by
    cases hl : lookupKey (jobId userId) st.jobs with
    | none => rfl
    | some j =>
      unfold hasJob getJob at h
      rw [hl] at h
      simp at h
  rw [remove_eq, eraseKey_lookup_none hn]

/-- Witness for C8: removing user 5 from an empty registry. -/
theorem C8_remove_absent_is_noop_witness :
    hasJob 5 (SchedState.empty Nat) = false ∧
    remove 5 (SchedState.empty Nat) = .ok (SchedState.empty Nat) :=
  ⟨by decide, C8_remove_absent_is_noop 5 (SchedState.empty Nat) (by decide)⟩

/-- C5: for local hour `h ∈ [0,23]`, minute `m ∈ [0,59]` and offset
`o ∈ [-23,23]`, the translator returns hour `(h - o) mod 24` with the same
minute, that hour lies in `[0,23]` (never negative), and it round-trips:
`((h - o) mod 24 + o) mod 24 = h`. -/
theorem C5_translator_correct (h m o : Int) (hh : 0 ≤ h ∧ h ≤ 23)
    (hm : 0 ≤ m ∧ m ≤ 59) (_ho : -23 ≤ o ∧ o ≤ 23) :
    convert_user_time_to_moscow (formatTime h m) o
        = formatTime ((h - o) % 24) m ∧
    (0 ≤ (h - o) % 24 ∧ (h - o) % 24 ≤ 23) ∧
    ((h - o) % 24 + o) % 24 = h := by
  refine ⟨?_, ⟨?_, ?_⟩, ?_⟩
  · unfold convert_user_time_to_moscow
    rw [parseTwoInts_formatTime hh.1 hm.1]
  · omega
  · omega
  · omega

/-- Witness for C5 at local hour 2, offset +5 (the spec's own example:
reference hour 21, not −3). -/
theorem C5_translator_correct_witness :
    convert_user_time_to_moscow (formatTime 2 0) 5
        = formatTime (((2 : Int) - 5) % 24) 0 ∧
    (0 ≤ ((2 : Int) - 5) % 24 ∧ ((2 : Int) - 5) % 24 ≤ 23) ∧
    (((2 : Int) - 5) % 24 + 5) % 24 = 2 :=
  C5_translator_correct 2 0 5 (by decide) (by decide) (by decide)

/-- C6: the wrapped timer callback never lets an exception propagate to the
timer mechanism: whatever the action does — returns, raises, or returns a
coroutine while no event loop is configured (the internal `RuntimeError`) —
the wrapper catches, logs (`= .ok true`) and returns normally. -/
theorem C6_runner_never_raises :
    (∀ (loopConfigured : Bool) (o : CallOutcome),
        (runner loopConfigured o).noRaise) ∧
    (∀ (loopConfigured : Bool) (m : String),
        runner loopConfigured (.exn m) = .ok true) ∧
    runner false (.ret true) = .ok true := by
  refine ⟨?_, ?_, ?_⟩
  · intro lp o
    cases o with
    | ret b =>
      cases b <;> cases lp <;> simp [runner, runnerBody, PyOutcome.noRaise]
    | exn m => simp [runner, runnerBody, PyOutcome.noRaise]
  · intro lp m
    rfl
  · rfl

/-- C7 (the code at the failing inputs): at fire time for an enabled user,
`send_push_card` raises before any bookkeeping write — `TypeError` from the
mis-called `choose_random_card(cards)` when a card must be drawn, and
`AttributeError` from the nonexistent `card.image_path` when today's card is
already recorded and found — so the attempt's timestamp is never recorded;
in both cases the user row is returned unchanged. -/
theorem C7_push_never_records_timestamp :
    send_push_card [⟨"The Sun", "d"⟩] 7 (some ⟨true, none, none, some 5, 0⟩)
      = .raised "TypeError: choose_random_card missing 2 required positional arguments: cards and db"
        (some ⟨true, none, none, some 5, 0⟩) ∧
    send_push_card [⟨"The Sun", "d"⟩] 7
        (some ⟨true, some "The Sun", some 7, some 5, 3⟩)
      = .raised "AttributeError: Card object has no attribute image_path"
        (some ⟨true, some "The Sun", some 7, some 5, 3⟩) := by
  exact ⟨rfl, rfl⟩

/-- C2 (amended): rehydration over profiles where enabled user A stores an
unparseable time (e.g. `"bad"`) and enabled user B a well-formed in-range
one completes with no exception escaping, in either order; afterwards B has
a live job and A has none, so A's failure does not prevent B's
rehydration. (The original claim allowed "any invalid shape": a parseable
out-of-range time such as `"25:00"` instead raises out of rehydration and
aborts the remaining users — `C2_counterexample`.) -/
theorem C2_rehydration_skips_unparseable (idA idB : Int)
    (tA tB : Option String) (oA oB : Int) (cb : α) (h m : Int)
    (hne : idA ≠ idB)
    (hA : parseTwoInts (pyOrStr tA DEFAULT_PUSH_TIME) = none)
    (hB : parseTwoInts (pyOrStr tB DEFAULT_PUSH_TIME) = some (h, m))
    (hh : 0 ≤ h ∧ h ≤ 23) (hm : 0 ≤ m ∧ m ≤ 59) :
    ∃ st', reschedule_user_pushes cb
        [⟨idA, tA, true, oA⟩, ⟨idB, tB, true, oB⟩] (SchedState.empty α)
        = .ok st' ∧
      hasJob idB st' = true ∧ hasJob idA st' = false ∧
      reschedule_user_pushes cb
        [⟨idB, tB, true, oB⟩, ⟨idA, tA, true, oA⟩] (SchedState.empty α)
        = .ok st' := by
  have hBsched : schedule_daily idB (pyOrStr tB DEFAULT_PUSH_TIME) cb
      (SchedState.empty α)
      = .ok ⟨[(jobId idB, ⟨⟨h, m⟩, cb, idB⟩)]⟩ := by
    rw [schedule_daily_ok hB hh hm]
    rfl
  have hAsched : schedule_daily idA (pyOrStr tA DEFAULT_PUSH_TIME) cb
      (⟨[(jobId idB, ⟨⟨h, m⟩, cb, idB⟩)]⟩ : SchedState α)
      = .ok ⟨[(jobId idB, ⟨⟨h, m⟩, cb, idB⟩)]⟩ :=
    schedule_daily_parse_none hA idA cb _
  have hjne : jobId idB ≠ jobId idA := fun e => hne (jobId_injective e).symm
  refine ⟨⟨[(jobId idB, ⟨⟨h, m⟩, cb, idB⟩)]⟩, ?_, ?_, ?_, ?_⟩
  · simp only [reschedule_user_pushes, List.map_cons, List.map_nil,
      toRehydRow, rescheduleRows, if_true,
      schedule_daily_parse_none hA idA cb, hBsched]
  · unfold hasJob getJob
    simp [lookupKey]
  · unfold hasJob getJob
    simp [lookupKey, hjne]
  · simp only [reschedule_user_pushes, List.map_cons, List.map_nil,
      toRehydRow, rescheduleRows, if_true, hBsched,
      schedule_daily_parse_none hA idA cb]

/-- Witness for C2 with A = user 1 storing `"bad"`, B = user 2 storing
`"10:00"`. -/
theorem C2_rehydration_skips_unparseable_witness :
    ∃ st', reschedule_user_pushes (0 : Nat)
        [⟨1, some "bad", true, 0⟩, ⟨2, some "10:00", true, 0⟩]
        (SchedState.empty Nat) = .ok st' ∧
      hasJob 2 st' = true ∧ hasJob 1 st' = false ∧
      reschedule_user_pushes (0 : Nat)
        [⟨2, some "10:00", true, 0⟩, ⟨1, some "bad", true, 0⟩]
        (SchedState.empty Nat) = .ok st' :=
  C2_rehydration_skips_unparseable 1 2 (some "bad") (some "10:00") 0 0 0 10 0
    (by decide) (by decide) (by decide) (by decide) (by decide)

/-- C2 counterexample: with invalid shape `"25:00"` for enabled user 1,
rehydration raises (the exception escapes) and enabled, well-formed user 2
is left without a job. -/
theorem C2_counterexample :
    ¬ (reschedule_user_pushes (0 : Nat)
        [⟨1, some "25:00", true, 0⟩, ⟨2, some "10:00", true, 0⟩]
        (SchedState.empty Nat)).noRaise ∧
    hasJob 2 (reschedule_user_pushes (0 : Nat)
        [⟨1, some "25:00", true, 0⟩, ⟨2, some "10:00", true, 0⟩]
        (SchedState.empty Nat)).state = false := by
  decide

/-- C3 (the code at the failing input): rehydrating an enabled user whose
profile stores local time `"10:00"` and timezone offset `+3` schedules the
job through plain `schedule_daily` at the stored local hour 10 — not via the
offset-translating path, which would give reference hour `(10 − 3) mod 24 =
7`. -/
theorem C3_rehydration_ignores_offset :
    (reschedule_user_pushes (0 : Nat) [⟨1, some "10:00", true, 3⟩]
        (SchedState.empty Nat)).noRaise ∧
    (getJob (jobId 1) (reschedule_user_pushes (0 : Nat)
        [⟨1, some "10:00", true, 3⟩] (SchedState.empty Nat)).state).map
      (fun j => j.trigger.hour) = some 10 ∧
    ((10 : Int) - 3) % 24 = 7 ∧
    some (10 : Int) ≠ some (((10 : Int) - 3) % 24) := by
  decide

/-- C9: an out-of-range hour `H` (e.g. 25) in the time string passed to
`schedule_daily_with_offset` is not rejected: the translator normalizes it
modulo 24, and a live job is created for the user firing daily at hour
`(H − o) mod 24` and minute `m`. -/
theorem C9_offset_normalizes_out_of_range_hour (u : Int) (s : String)
    (H m o : Int) (cb : α) (st : SchedState α)
    (hparse : parseTwoInts s = some (H, m))
    (_hH : H < 0 ∨ 23 < H)
    (hm : 0 ≤ m ∧ m ≤ 59) :
    ∃ st₁, schedule_daily_with_offset u s o cb st = .ok st₁ ∧
      getJob (jobId u) st₁ = some ⟨⟨(H - o) % 24, m⟩, cb, u⟩ := by
  refine ⟨addJob (jobId u) ⟨(H - o) % 24, m⟩ cb u
    ⟨eraseKey (jobId u) st.jobs⟩, ?_, ?_⟩
  · unfold schedule_daily_with_offset convert_user_time_to_moscow
    simp only [hparse]
    exact schedule_daily_ok
      (parseTwoInts_formatTime (by omega) hm.1)
      ⟨by omega, by omega⟩ hm u cb st
  · exact lookupKey_insertKey_self _ _ _

/-- Witness for C9: `"25:00"` with offset +3 yields a job at 22:00. -/
theorem C9_offset_normalizes_out_of_range_hour_witness :
    ∃ st₁, schedule_daily_with_offset 1 "25:00" 3 (0 : Nat)
        (SchedState.empty Nat) = .ok st₁ ∧
      getJob (jobId 1) st₁ = some ⟨⟨((25 : Int) - 3) % 24, 0⟩, 0, 1⟩ :=
  C9_offset_normalizes_out_of_range_hour 1 "25:00" 25 0 3 0
    (SchedState.empty Nat) (by decide) (by decide) (by decide)

/-- C10: operations on user `u` leave a distinct user `v`'s registry entry
untouched — `has_job(v)` and `v`'s stored job (trigger and action alike)
are the same before and after `schedule_daily`, `schedule_daily_with_offset`
and `remove` on `u`. -/
theorem C10_ops_frame_other_users (u v : Int) (t : String) (o : Int)
    (cb : α) (st : SchedState α) (hne : u ≠ v) :
    getJob (jobId v) ((schedule_daily u t cb st).state)
        = getJob (jobId v) st ∧
    getJob (jobId v) ((schedule_daily_with_offset u t o cb st).state)
        = getJob (jobId v) st ∧
    getJob (jobId v) ((remove u st).state) = getJob (jobId v) st ∧
    hasJob v ((schedule_daily u t cb st).state) = hasJob v st ∧
    hasJob v ((schedule_daily_with_offset u t o cb st).state) = hasJob v st ∧
    hasJob v ((remove u st).state) = hasJob v st := by
  have hjne : jobId v ≠ jobId u := fun e => hne (jobId_injective e).symm
  have hs : ∀ t' : String,
      getJob (jobId v) ((schedule_daily u t' cb st).state)
        = getJob (jobId v) st := by
    intro t'
    unfold schedule_daily
    cases hp : parseTwoInts t' with
    | none => rfl
    | some pair =>
      rcases pair with ⟨hh, mm⟩
      simp only [removeState_eq]
      cases htr : cronTrigger hh mm with
      | error e =>
        show getJob (jobId v) ⟨eraseKey (jobId u) st.jobs⟩ = _
        unfold getJob
        exact lookupKey_eraseKey_ne hjne st.jobs
      | ok trig =>
        show getJob (jobId v)
          (addJob (jobId u) trig cb u ⟨eraseKey (jobId u) st.jobs⟩) = _
        unfold getJob addJob
        rw [lookupKey_insertKey_ne hjne]
        exact lookupKey_eraseKey_ne hjne st.jobs
  have hr : getJob (jobId v) ((remove u st).state) = getJob (jobId v) st := by
    rw [remove_eq]
    unfold getJob
    exact lookupKey_eraseKey_ne hjne st.jobs
  refine ⟨hs t, hs _, hr, ?_, ?_, ?_⟩ <;>
    unfold hasJob
  · rw [hs t]
  · unfold schedule_daily_with_offset
    rw [hs _]
  · rw [hr]

/-- Witness for C10: user 1's operations do not touch user 2's entry. -/
theorem C10_ops_frame_other_users_witness :
    getJob (jobId 2) ((schedule_daily 1 "10:00" (0 : Nat)
        (SchedState.empty Nat)).state)
      = getJob (jobId 2) (SchedState.empty Nat) ∧
    getJob (jobId 2) ((schedule_daily_with_offset 1 "10:00" 3 (0 : Nat)
        (SchedState.empty Nat)).state)
      = getJob (jobId 2) (SchedState.empty Nat) ∧
    getJob (jobId 2) ((remove 1 (SchedState.empty Nat)).state)
      = getJob (jobId 2) (SchedState.empty Nat) ∧
    hasJob 2 ((schedule_daily 1 "10:00" (0 : Nat)
        (SchedState.empty Nat)).state)
      = hasJob 2 (SchedState.empty Nat) ∧
    hasJob 2 ((schedule_daily_with_offset 1 "10:00" 3 (0 : Nat)
        (SchedState.empty Nat)).state)
      = hasJob 2 (SchedState.empty Nat) ∧
    hasJob 2 ((remove 1 (SchedState.empty Nat)).state)
      = hasJob 2 (SchedState.empty Nat) :=
  C10_ops_frame_other_users 1 2 "10:00" 3 0 (SchedState.empty Nat) (by decide)

/-- C4: the registry never holds two live jobs for one user id — after any
sequence of `schedule_daily` / `schedule_daily_with_offset` / `remove`
calls from the initial empty registry, each user id has at most one job
(and this holds at every point, since every prefix of a sequence is a
sequence); and scheduling twice in succession with two different valid
times leaves exactly one live job for that id, firing at the second time. -/
theorem C4_at_most_one_job_per_user :
    (∀ (ops : List (SchedOp α)) (u : Int),
        countJobsFor u (applyOps (SchedState.empty α) ops) ≤ 1) ∧
    (∀ (u : Int) (t₁ t₂ : String) (cb₁ cb₂ : α) (st : SchedState α)
        (h₁ m₁ h₂ m₂ : Int),
        keysNodup st →
        parseTwoInts t₁ = some (h₁, m₁) →
        (0 ≤ h₁ ∧ h₁ ≤ 23) → (0 ≤ m₁ ∧ m₁ ≤ 59) →
        parseTwoInts t₂ = some (h₂, m₂) →
        (0 ≤ h₂ ∧ h₂ ≤ 23) → (0 ≤ m₂ ∧ m₂ ≤ 59) →
        (h₁, m₁) ≠ (h₂, m₂) →
        ∃ st₂,
          schedule_daily u t₂ cb₂ ((schedule_daily u t₁ cb₁ st).state)
            = .ok st₂ ∧
          countJobsFor u st₂ = 1 ∧
          getJob (jobId u) st₂ = some ⟨⟨h₂, m₂⟩, cb₂, u⟩) := by
  constructor
  · intro ops u
    have hnd : keysNodup (applyOps (SchedState.empty α) ops) :=
      keysNodup_applyOps (by simp [keysNodup, SchedState.empty]) ops
    exact List.nodup_iff_count_le_one.mp hnd (jobId u)
  · intro u t₁ t₂ cb₁ cb₂ st h₁ m₁ h₂ m₂ hnd hp₁ hh₁ hm₁ hp₂ hh₂ hm₂ _hdiff
    have e₁ : (schedule_daily u t₁ cb₁ st).state
        = addJob (jobId u) ⟨h₁, m₁⟩ cb₁ u ⟨eraseKey (jobId u) st.jobs⟩ := by
      rw [schedule_daily_ok hp₁ hh₁ hm₁]
      rfl
    refine ⟨addJob (jobId u) ⟨h₂, m₂⟩ cb₂ u
      ⟨eraseKey (jobId u)
        (addJob (jobId u) ⟨h₁, m₁⟩ cb₁ u
          ⟨eraseKey (jobId u) st.jobs⟩).jobs⟩, ?_, ?_, ?_⟩
    · rw [e₁]
      exact schedule_daily_ok hp₂ hh₂ hm₂ u cb₂ _
    · have hnd₁ : keysNodup (addJob (jobId u) ⟨h₁, m₁⟩ cb₁ u
          ⟨eraseKey (jobId u) st.jobs⟩) :=
        nodup_keys_insertKey _ (nodup_keys_eraseKey _ hnd)
      have hnd₂ : ((insertKey (jobId u) (⟨⟨h₂, m₂⟩, cb₂, u⟩ : Job α)
          (eraseKey (jobId u)
            (addJob (jobId u) ⟨h₁, m₁⟩ cb₁ u
              ⟨eraseKey (jobId u) st.jobs⟩).jobs)).map Prod.fst).Nodup :=
        nodup_keys_insertKey _ (nodup_keys_eraseKey _ hnd₁)
      have hmem : jobId u ∈ (insertKey (jobId u) (⟨⟨h₂, m₂⟩, cb₂, u⟩ : Job α)
          (eraseKey (jobId u)
            (addJob (jobId u) ⟨h₁, m₁⟩ cb₁ u
              ⟨eraseKey (jobId u) st.jobs⟩).jobs)).map Prod.fst := by
        refine (lookupKey_isSome_iff _ _).mp ?_
        rw [lookupKey_insertKey_self]
        rfl
      exact List.count_eq_one_of_mem hnd₂ hmem
    · exact lookupKey_insertKey_self _ _ _

/-- Witness for C4: one scheduling op, then a 09:00/10:00 reschedule. -/
theorem C4_at_most_one_job_per_user_witness :
    countJobsFor 1 (applyOps (SchedState.empty Nat)
      [SchedOp.schedDaily 1 "09:00" 0]) ≤ 1 ∧
    ∃ st₂, schedule_daily 1 "10:00" (0 : Nat)
        ((schedule_daily 1 "09:00" (0 : Nat)
          (SchedState.empty Nat)).state) = .ok st₂ ∧
      countJobsFor 1 st₂ = 1 ∧
      getJob (jobId 1) st₂ = some ⟨⟨10, 0⟩, 0, 1⟩ :=
  ⟨C4_at_most_one_job_per_user.1 [SchedOp.schedDaily 1 "09:00" 0] 1,
   C4_at_most_one_job_per_user.2 1 "09:00" "10:00" 0 0
     (SchedState.empty Nat) 9 0 10 0
     (by simp [keysNodup, SchedState.empty]) (by decide) (by decide)
     (by decide) (by decide) (by decide) (by decide) (by decide)⟩

end Milky
